import Mathlib

/-!
Verification development for the pxc-tools container codec, JSON pointer
operations, node/port resolver and graph builder.

Modelling conventions:
* Rust byte buffers and Rust strings are lists of natural numbers (the
  bytes of the buffer / the UTF-8 bytes of the string).
* serde_json::Value is the inductive type Json below; numbers are modelled
  as integers, objects as association lists in insertion order.
* The external zlib codec (flate2) and the serde_json string codec are
  taken as function parameters; the theorems that need their round-trip
  behaviour assume it pointwise, exactly at the values where the Rust code
  relies on it.
* Loops whose progress measure is not structural (the chunk walk of
  parse_pxc, the digit loop of short_id) are written with an explicit fuel
  argument; the callers pass enough fuel for the fallback branch to be
  unreachable, which keeps every definition computable by the kernel.
-/

/-- A Rust String / str / byte buffer, as its byte sequence. -/
abbrev Str := List Nat

/-- serde_json::Value. -/
inductive Json where
  | null
  | bool (b : Bool)
  | num (n : Int)
  | str (s : Str)
  | arr (elems : List Json)
  | obj (fields : List (Str × Json))

/-- Association-list lookup: serde_json Map::get (first binding wins). -/
def lookupField : List (Str × Json) → Str → Option Json
  | [], _ => none
  | (k, v) :: rest, key => if k = key then some v else lookupField rest key

/-- serde_json Map::insert: replace the value of an existing key in place,
otherwise append the new binding. -/
def setField : List (Str × Json) → Str → Json → List (Str × Json)
  | [], key, v => [(key, v)]
  | (k, w) :: rest, key, v =>
    if k = key then (k, v) :: rest else (k, w) :: setField rest key v

/-- serde_json Map::remove: delete the binding of a key (first occurrence). -/
def eraseField : List (Str × Json) → Str → List (Str × Json)
  | [], _ => []
  | (k, w) :: rest, key =>
    if k = key then rest else (k, w) :: eraseField rest key

/-- Value::get(key): field lookup on an object, None on anything else. -/
def Json.get (j : Json) (key : Str) : Option Json :=
  match j with
  | .obj fields => lookupField fields key
  | _ => none

/-- Value::as_str(). -/
def Json.asStr : Json → Option Str
  | .str s => some s
  | _ => none

/-- Value::as_i64() (with the numeric model of Json, also covering the
as_f64-cast-to-i64 fallbacks the source chains after it). -/
def Json.asI64 : Json → Option Int
  | .num n => some n
  | _ => none

/-- Value::as_bool(). -/
def Json.asBool : Json → Option Bool
  | .bool b => some b
  | _ => none

/-- Value::is_string(). -/
def Json.isString : Json → Bool
  | .str _ => true
  | _ => false

/-- Value::is_null(). -/
def Json.isNull : Json → Bool
  | .null => true
  | _ => false

/-- Value::is_array(). -/
def Json.isArr : Json → Bool
  | .arr _ => true
  | _ => false

/-- Set a field of an object value, leaving non-objects unchanged (models an
in-place mutation through a mutable reference that is known to be an
object). -/
def setJsonField (j : Json) (key : Str) (v : Json) : Json :=
  match j with
  | .obj fields => .obj (setField fields key v)
  | _ => j

/-- The test `v != Value::Number((-4).into())` of build_node_dump: serde
structural equality against the constant number -4. -/
def isPlaceholderNeg4 : Json → Bool
  | .num n => n == -4
  | _ => false

/-! ### Byte-level helpers and the string constants of the source -/

/-- Little-endian u32 serialization (byteorder::WriteBytesExt::write_u32). -/
def writeU32le (n : Nat) : List Nat :=
  [n % 256, n / 256 % 256, n / 65536 % 256, n / 16777216 % 256]

/-- Little-endian u32 deserialization of the first four bytes
(byteorder::ReadBytesExt::read_u32); only ever applied by the source at
in-bounds positions, so the default for short input is irrelevant. -/
def readU32 (bytes : List Nat) : Nat :=
  match bytes with
  | b0 :: b1 :: b2 :: b3 :: _ =>
    b0 % 256 + 256 * (b1 % 256) + 65536 * (b2 % 256) + 16777216 * (b3 % 256)
  | _ => 0

/-- The container magic b"PXCX". -/
def magicBytes : List Nat := [80, 88, 67, 88]

/-- The chunk tag b"THMB". -/
def tagTHMB : List Nat := [84, 72, 77, 66]

/-- The chunk tag b"META". -/
def tagMETA : List Nat := [77, 69, 84, 65]

def keyVersion : Str := [118, 101, 114, 115, 105, 111, 110]

def keyVersions : Str := [118, 101, 114, 115, 105, 111, 110, 115]

def keyNodes : Str := [110, 111, 100, 101, 115]

def keyId : Str := [105, 100]

def keyType : Str := [116, 121, 112, 101]

def keyName : Str := [110, 97, 109, 101]

def keyInputs : Str := [105, 110, 112, 117, 116, 115]

def keyOutputs : Str := [111, 117, 116, 112, 117, 116, 115]

def keyFromNode : Str := [102, 114, 111, 109, 95, 110, 111, 100, 101]

def keyFromIndex : Str := [102, 114, 111, 109, 95, 105, 110, 100, 101, 120]

def keyFromTag : Str := [102, 114, 111, 109, 95, 116, 97, 103]

def keyAnim : Str := [97, 110, 105, 109]

def keyR : Str := [114]

def keyD : Str := [100]

def keyS : Str := [115]

def keyN : Str := [110]

def keyT : Str := [116]

def keyV : Str := [118]

def keyC : Str := [99]

def keyA : Str := [97]

def keyAn : Str := [97, 110]

def keyK : Str := [107]

def keyAd : Str := [97, 100]

def keyRaw : Str := [114, 97, 119]

def keyAttri : Str := [97, 116, 116, 114, 105]

def strGradient : Str := [103, 114, 97, 100, 105, 101, 110, 116]

def strUnknown : Str := [117, 110, 107, 110, 111, 119, 110]

def strOutput : Str := [111, 117, 116, 112, 117, 116]

/-! ### Container codec (src/pxc.rs) -/

structure Thumbnail where
  compressed : List Nat

structure Meta where
  save_version : Nat
  version_string : Str

structure Header where
  thumbnail : Option Thumbnail
  meta : Option Meta
  header_size : Nat

structure PxcFile where
  header : Header
  json : Json

/-- The error conditions of parse_pxc / the pointer-free codec, one
constructor per bail site of the source. -/
inductive PxcError where
  | fileTooSmall
  | headerSizeTooSmall
  | headerSizeBeyondFile
  | truncatedChunkHeader
  | chunkLengthExceedsHeader
  | metaChunkTooSmall
  | jsonParseFailed
  deriving DecidableEq

/-- The spec's MalformedContainer class: every framing failure of parse_pxc;
only a JSON payload failure is UnsupportedPayload instead. -/
def PxcError.isMalformedContainer : PxcError → Bool
  | .jsonParseFailed => false
  | _ => true

/-- trim_cstr: truncate at the first zero byte (or keep everything) and
decode lossily; lossyDecode stands for String::from_utf8_lossy. -/
def trim_cstr (lossyDecode : List Nat → Str) (buf : List Nat) : Str :=
  lossyDecode (buf.takeWhile (fun b => b ≠ 0))

/-- The decompress-or-raw fallback of parse_payload: attempt zlib inflate,
fall back to the bytes as-is. -/
def zlibDecompOrRaw (zlibDecompress : List Nat → Option (List Nat))
    (payload : List Nat) : List Nat :=
  match zlibDecompress payload with
  | some v => v
  | none => payload

/-- parse_payload: decompress-or-raw, zero-trim, lossy decode, JSON parse;
jsonFromStr stands for serde_json::from_str. -/
def parse_payload (zlibDecompress : List Nat → Option (List Nat))
    (jsonFromStr : Str → Option Json) (lossyDecode : List Nat → Str)
    (payload : List Nat) : Except PxcError Json :=
  match jsonFromStr (trim_cstr lossyDecode (zlibDecompOrRaw zlibDecompress payload)) with
  | some j => .ok j
  | none => .error .jsonParseFailed

/-- The chunk walk of parse_pxc (`while pos < header_size`), with a fuel
argument making the recursion structural; each iteration advances pos by at
least 8, so fuel = header_size is always sufficient and the fuel-exhausted
branch is unreachable from parse_pxc. -/
def parseChunksFuel (lossyDecode : List Nat → Str) :
    Nat → List Nat → Nat → Nat → Option Thumbnail → Option Meta →
    Except PxcError (Option Thumbnail × Option Meta)
  | 0, _, _, _, thumbnail, meta => .ok (thumbnail, meta)
  | fuel + 1, data, header_size, pos, thumbnail, meta =>
    if pos < header_size then
      if header_size - pos < 8 then .error .truncatedChunkHeader
      else
        let tag := (data.drop pos).take 4
        let len := readU32 (data.drop (pos + 4))
        if len > header_size - (pos + 8) then .error .chunkLengthExceedsHeader
        else
          let body := (data.drop (pos + 8)).take len
          if tag = tagTHMB then
            parseChunksFuel lossyDecode fuel data header_size (pos + 8 + len)
              (some ⟨body⟩) meta
          else if tag = tagMETA then
            if len < 4 then .error .metaChunkTooSmall
            else
              parseChunksFuel lossyDecode fuel data header_size (pos + 8 + len)
                thumbnail
                (some ⟨readU32 body, trim_cstr lossyDecode (body.drop 4)⟩)
          else
            parseChunksFuel lossyDecode fuel data header_size (pos + 8 + len)
              thumbnail meta
    else .ok (thumbnail, meta)

/-- parse_pxc. -/
def parse_pxc (zlibDecompress : List Nat → Option (List Nat))
    (jsonFromStr : Str → Option Json) (lossyDecode : List Nat → Str)
    (data : List Nat) : Except PxcError PxcFile :=
  if data.length < 8 then .error .fileTooSmall
  else if data.take 4 ≠ magicBytes then
    match parse_payload zlibDecompress jsonFromStr lossyDecode data with
    | .ok json => .ok ⟨⟨none, none, 0⟩, json⟩
    | .error e => .error e
  else
    let header_size := readU32 (data.drop 4)
    if header_size < 8 then .error .headerSizeTooSmall
    else if data.length < header_size then .error .headerSizeBeyondFile
    else
      match parseChunksFuel lossyDecode header_size data header_size 8 none none with
      | .error e => .error e
      | .ok (thumbnail, meta) =>
        match parse_payload zlibDecompress jsonFromStr lossyDecode
            (data.drop header_size) with
        | .ok json => .ok ⟨⟨thumbnail, meta, header_size⟩, json⟩
        | .error e => .error e

/-- derive_meta_from_json: save_version from the top-level "version" field
(as_i64, cast to u32), version_string from "versions" if it is a string,
else the empty string. -/
def derive_meta_from_json (json : Json) : Option Meta :=
  match (Json.get json keyVersion).bind Json.asI64 with
  | none => none
  | some n =>
    some ⟨(n % (4294967296 : Int)).toNat,
      match (Json.get json keyVersions).bind Json.asStr with
      | some s => s
      | none => []⟩

/-- The meta write_pxc puts in the header: the carried meta if present, else
the one derived from the document. -/
def effective_meta (pxc : PxcFile) : Option Meta :=
  match pxc.header.meta with
  | some m => some m
  | none => derive_meta_from_json pxc.json

/-- The chunk region write_pxc emits between the size field and the
payload: a THMB chunk for a carried thumbnail, then a META chunk for the
effective meta. -/
def header_chunks (pxc : PxcFile) : List Nat :=
  (match pxc.header.thumbnail with
   | some thumb =>
     tagTHMB ++ writeU32le thumb.compressed.length ++ thumb.compressed
   | none => []) ++
  (match effective_meta pxc with
   | some meta =>
     let meta_buf := writeU32le meta.save_version ++ meta.version_string ++ [0]
     tagMETA ++ writeU32le meta_buf.length ++ meta_buf
   | none => [])

/-- The serialization write_pxc picks: compact (serde_json::to_string) or
indented (to_string_pretty) per the minify flag. -/
def serializedDoc (jsonToString jsonToStringPretty : Json → Str)
    (minify : Bool) (j : Json) : Str :=
  if minify then jsonToString j else jsonToStringPretty j

/-- write_pxc, as the byte string it writes: magic, backpatched header
size, chunks, then the zlib-deflated zero-terminated serialized document
(compact or indented per the minify flag). -/
def write_pxc (zlibCompress : List Nat → List Nat)
    (jsonToString jsonToStringPretty : Json → Str)
    (pxc : PxcFile) (minify : Bool) : List Nat :=
  let json_str := serializedDoc jsonToString jsonToStringPretty minify pxc.json
  let payload := zlibCompress (json_str ++ [0])
  magicBytes ++ writeU32le (8 + (header_chunks pxc).length) ++
    header_chunks pxc ++ payload

/-! ### Short ids (src/ids.rs) -/

/-- The digit loop of short_id, least-significant digit first, with a fuel
argument making the recursion structural (the loop divides by 26 each
round, so any fuel above the input is sufficient). -/
def shortIdDigitsFuel : Nat → Nat → List Nat
  | 0, n => [n % 26]
  | fuel + 1, n =>
    let rem := n % 26
    if n / 26 = 0 then [rem] else rem :: shortIdDigitsFuel fuel (n / 26 - 1)

/-- short_id: bijective base-26 letter code of n, letters A..Z as bytes. -/
def short_id (n : Nat) : Str :=
  ((shortIdDigitsFuel (n + 1) n).map (fun d => 65 + d)).reverse

/-- The value of a least-significant-first digit list under the bijective
base-26 numeration (the inverse reading of the short_id digit loop). -/
def decodeLSF : List Nat → Nat
  | [] => 0
  | [d] => d
  | d :: rest => d + 26 * (decodeLSF rest + 1)

/-- Modelled from the spec: the decoder of the bijective numeration, the
inverse used conceptually by positional short-id resolution (the source
resolves short ids by searching for an index whose short_id matches, so no
standalone decoder exists in src/). -/
def decode_short_id (s : Str) : Nat :=
  decodeLSF (s.reverse.map (fun c => c - 65))

/-- short_for_id: reverse lookup in the short-to-full id map (first binding
whose value is the full id). -/
def short_for_id : List (Str × Json) → Str → Option Str
  | [], _ => none
  | (short, full) :: rest, full_id =>
    if full.asStr = some full_id then some short
    else short_for_id rest full_id

/-! ### Registry (src/registry.rs), as consulted by ops and graph -/

structure RegistryPort where
  name : Option Str
  ty : Option Str
  tooltip : Option Str

structure RegistryNode where
  inputs : List RegistryPort
  outputs : List RegistryPort

/-- Registry: the HashMap of node types, as an association list with unique
keys. -/
structure Registry where
  nodes : List (Str × RegistryNode)

def lookupRegNode : List (Str × RegistryNode) → Str → Option RegistryNode
  | [], _ => none
  | (k, v) :: rest, key => if k = key then some v else lookupRegNode rest key

/-- str::to_ascii_lowercase on the byte model. -/
def toAsciiLower (s : Str) : Str :=
  s.map (fun b => if 65 ≤ b ∧ b ≤ 90 then b + 32 else b)

/-- Whether the first list is a prefix of the second (str matching step). -/
def strStartsWith : Str → Str → Bool
  | [], _ => true
  | _ :: _, [] => false
  | a :: as1, b :: bs1 => a == b && strStartsWith as1 bs1

/-- str::contains(needle) on byte strings. -/
def strContains : Str → Str → Bool
  | [], needle => needle.isEmpty
  | c :: rest, needle =>
    strStartsWith needle (c :: rest) || strContains rest needle

/-! ### Node/port resolver and input mutation (src/ops.rs) -/

inductive OpError where
  | noNodesArray
  | nodeIdNotFound
  | nodeNotFoundAfterResolve
  | inputOrInputNameRequired
  | registryMissingNodeType
  | inputNameNotFound
  | nodeHasNoInputsArray
  | inputSlotNotObject
  | invalidArrayIndex
  | pointerNotFound
  | pointerNotObjectArray
  deriving DecidableEq

/-- node.get("id").and_then(as_str). -/
def nodeIdOf (node : Json) : Option Str :=
  (Json.get node keyId).bind Json.asStr

/-- node.get("type").and_then(as_str).unwrap_or(""). -/
def nodeTypeOf (node : Json) : Str :=
  match (Json.get node keyType).bind Json.asStr with
  | some s => s
  | none => []

/-- First registry input port whose declared name matches. -/
def findPortIdx : List RegistryPort → Str → Option Nat
  | [], _ => none
  | p :: rest, name =>
    match p.name with
    | some nm => if nm = name then some 0 else (findPortIdx rest name).map (· + 1)
    | none => (findPortIdx rest name).map (· + 1)

/-- resolve_input_slot: explicit index wins, else registry name lookup. -/
def resolve_input_slot (node : Json) (input_slot : Option Nat)
    (input_name : Option Str) (registry : Option Registry) :
    Except OpError Nat :=
  match input_slot with
  | some s => .ok s
  | none =>
    match input_name with
    | none => .error .inputOrInputNameRequired
    | some name =>
      match registry.bind (fun r => lookupRegNode r.nodes (nodeTypeOf node)) with
      | none => .error .registryMissingNodeType
      | some reg_node =>
        match findPortIdx reg_node.inputs name with
        | some i => .ok i
        | none => .error .inputNameNotFound

/-- The positional scan of resolve_node_id: first index whose short id
matches the argument. -/
def matchShortId : List Str → Nat → Str → Option Str
  | [], _, _ => none
  | id :: rest, i, arg =>
    if short_id i = arg then some id else matchShortId rest (i + 1) arg

/-- resolve_node_id: exact id match wins, else interpret the argument as a
short id over the current node order. -/
def resolve_node_id (node_arg : Str) (nodes : List Json) : Option Str :=
  if nodes.any (fun n => nodeIdOf n == some node_arg) then some node_arg
  else matchShortId (nodes.filterMap nodeIdOf) 0 node_arg

/-- First index of the node carrying the resolved id (iter_mut().find). -/
def findNodeIdxAux : List Json → Str → Option Nat
  | [], _ => none
  | n :: rest, nid =>
    if nodeIdOf n = some nid then some 0
    else (findNodeIdxAux rest nid).map (· + 1)

/-- First node carrying an id (iter().find), used by read-side accessors. -/
def findNodeById : List Json → Str → Option Json
  | [], _ => none
  | n :: rest, nid =>
    if nodeIdOf n = some nid then some n else findNodeById rest nid

/-- The gradient branch of set_input_value_in_pxc: if the registry declares
the resolved port's type as containing "gradient" (case-insensitively) and
the value is not already a string, re-encode it as a JSON string. -/
def gradient_final_value (jsonToString : Json → Str) (registry : Option Registry)
    (node_type : Str) (slot : Nat) (value : Json) : Json :=
  let isGradient :=
    match registry with
    | none => false
    | some reg =>
      match lookupRegNode reg.nodes node_type with
      | none => false
      | some reg_node =>
        match reg_node.inputs.get? slot with
        | none => false
        | some port =>
          match port.ty with
          | none => false
          | some ty => strContains (toAsciiLower ty) strGradient
  if isGradient && !value.isString then .str (jsonToString value) else value

/-- set_input_value_in_pxc: resolve node and slot, grow inputs with empty
objects, clear connection/animation markers and store the (possibly
gradient-re-encoded) value under r.d. -/
def set_input_value_in_pxc (jsonToString : Json → Str) (pxc : PxcFile)
    (node_arg : Str) (input_slot : Option Nat) (input_name : Option Str)
    (value : Json) (registry : Option Registry) : Except OpError PxcFile :=
  match Json.get pxc.json keyNodes with
  | some (.arr nodes) =>
    match resolve_node_id node_arg nodes with
    | none => .error .nodeIdNotFound
    | some node_id =>
      match findNodeIdxAux nodes node_id with
      | none => .error .nodeNotFoundAfterResolve
      | some idx =>
        let node := nodes.getD idx .null
        match resolve_input_slot node input_slot input_name registry with
        | .error e => .error e
        | .ok slot =>
          let node_type := nodeTypeOf node
          match Json.get node keyInputs with
          | some (.arr inputs) =>
            let inputs2 := inputs ++ List.replicate (slot + 1 - inputs.length) (.obj [])
            match inputs2.getD slot .null with
            | .obj inputFields =>
              let cleaned :=
                eraseField (eraseField (eraseField (eraseField inputFields
                  keyFromNode) keyFromIndex) keyFromTag) keyAnim
              let final_value := gradient_final_value jsonToString registry node_type slot value
              let newInput := Json.obj (setField cleaned keyR (.obj [(keyD, final_value)]))
              let newNode := setJsonField node keyInputs (.arr (inputs2.set slot newInput))
              .ok ⟨pxc.header, setJsonField pxc.json keyNodes (.arr (nodes.set idx newNode))⟩
            | _ => .error .inputSlotNotObject
          | _ => .error .nodeHasNoInputsArray
  | _ => .error .noNodesArray

/-- Read-side accessor: the raw r value stored at a node's input slot. -/
def storedInputR (pxc : PxcFile) (node_id : Str) (slot : Nat) : Option Json :=
  match Json.get pxc.json keyNodes with
  | some (.arr nodes) =>
    match findNodeById nodes node_id with
    | some node =>
      match Json.get node keyInputs with
      | some (.arr inputs) => Json.get (inputs.getD slot .null) keyR
      | _ => none
    | none => none
  | _ => none

/-! ### JSON pointer operations (src/ops.rs) -/

/-- str::split on the slash byte (keeps empty segments, as Rust does). -/
def splitOnSlash : Str → List Str
  | [] => [[]]
  | c :: rest =>
    let r := splitOnSlash rest
    if c = 47 then [] :: r
    else
      match r with
      | t :: ts => (c :: t) :: ts
      | [] => [[c]]

/-- str::replace for a two-byte pattern replaced by one byte, left to
right, non-overlapping (the shape of both pointer unescape steps). -/
def replacePair (a b r : Nat) : Str → Str
  | [] => []
  | [c] => [c]
  | c :: d :: rest =>
    if c = a ∧ d = b then r :: replacePair a b r rest
    else c :: replacePair a b r (d :: rest)

/-- Pointer token unescaping: ~1 to /, then ~0 to ~. -/
def unescapeToken (t : Str) : Str :=
  replacePair 126 48 126 (replacePair 126 49 47 t)

/-- Pointer tokenization: split on /, skip the leading empty segment,
unescape each token. -/
def tokensOf (pointer : Str) : List Str :=
  ((splitOnSlash pointer).drop 1).map unescapeToken

/-- usize::from_str: optional leading plus sign, then one or more ASCII
digits. -/
def parseArrayIndex (s : Str) : Option Nat :=
  let digits := match s with
    | 43 :: rest => rest
    | _ => s
  if digits.isEmpty || !(digits.all (fun c => 48 ≤ c ∧ c ≤ 57)) then none
  else some (digits.foldl (fun acc c => acc * 10 + (c - 48)) 0)

/-- The token loop of set_json_pointer. -/
def setTokens : Json → List Str → Json → Except OpError Json
  | cur, [], _ => .ok cur
  | cur, key :: rest, value =>
    match cur with
    | .obj fields =>
      if rest.isEmpty then .ok (.obj (setField fields key value))
      else
        let fields2 :=
          if (lookupField fields key).isSome then fields
          else setField fields key (.obj [])
        let child := (lookupField fields2 key).getD (.obj [])
        match setTokens child rest value with
        | .ok c2 => .ok (.obj (setField fields2 key c2))
        | .error e => .error e
    | .arr elems =>
      match parseArrayIndex key with
      | none => .error .invalidArrayIndex
      | some idx =>
        let elems2 :=
          if elems.length ≤ idx then
            elems ++ List.replicate (idx + 1 - elems.length) Json.null
          else elems
        if rest.isEmpty then .ok (.arr (elems2.set idx value))
        else
          let child := elems2.getD idx .null
          let child2 := if child.isNull then Json.obj [] else child
          match setTokens child2 rest value with
          | .ok c3 => .ok (.arr (elems2.set idx c3))
          | .error e => .error e
    | _ => .error .pointerNotObjectArray

/-- set_json_pointer. -/
def set_json_pointer (root : Json) (pointer : Str) (value : Json) :
    Except OpError Json :=
  if pointer = [] ∨ pointer = [47] then .ok value
  else setTokens root (tokensOf pointer) value

/-- The token loop of remove_json_pointer. -/
def removeTokens : Json → List Str → Except OpError Json
  | cur, [] => .ok cur
  | cur, key :: rest =>
    match cur with
    | .obj fields =>
      if rest.isEmpty then .ok (.obj (eraseField fields key))
      else
        match lookupField fields key with
        | none => .error .pointerNotFound
        | some child =>
          match removeTokens child rest with
          | .ok c2 => .ok (.obj (setField fields key c2))
          | .error e => .error e
    | .arr elems =>
      match parseArrayIndex key with
      | none => .error .invalidArrayIndex
      | some idx =>
        if elems.length ≤ idx then .error .pointerNotFound
        else if rest.isEmpty then .ok (.arr (elems.set idx .null))
        else
          match removeTokens (elems.getD idx .null) rest with
          | .ok c2 => .ok (.arr (elems.set idx c2))
          | .error e => .error e
    | _ => .error .pointerNotObjectArray

/-- remove_json_pointer. -/
def remove_json_pointer (root : Json) (pointer : Str) : Except OpError Json :=
  if pointer = [] ∨ pointer = [47] then .ok .null
  else removeTokens root (tokensOf pointer)

/-! ### Graph builder (src/graph.rs) -/

inductive GraphMode where
  | summary
  | compact
  | full
  deriving DecidableEq

/-- A derived edge of graph_json_from_pxc: source node and output index,
target node and input slot index, optional tag, and (when json_inputs is
set) the raw input slot. -/
structure Edge where
  f : Str
  fo : Int
  t : Str
  ti : Nat
  tg : Option Int
  inputRaw : Option Json

/-- The connection carried by an input slot: from_node (string) and
from_index (number), with the optional from_tag. -/
def connOf (input : Json) : Option (Str × Int × Option Int) :=
  match (Json.get input keyFromNode).bind Json.asStr,
      (Json.get input keyFromIndex).bind Json.asI64 with
  | some from_node, some from_index =>
    some (from_node, from_index, (Json.get input keyFromTag).bind Json.asI64)
  | _, _ => none

/-- The inner loop of edge derivation: for (idx, input) in
inputs.iter().enumerate(), emit an edge whenever the slot carries both
from_node and from_index. -/
def edgesOfInputs (json_inputs : Bool) (to_id : Str) :
    Nat → List Json → List Edge
  | _, [] => []
  | idx, input :: rest =>
    (match connOf input with
     | some (from_node, from_index, from_tag) =>
       [⟨from_node, from_index, to_id, idx, from_tag,
         if json_inputs then some input else none⟩]
     | none => []) ++ edgesOfInputs json_inputs to_id (idx + 1) rest

/-- Edges contributed by one node: nothing without an id or an inputs
array. -/
def edgesOfNode (json_inputs : Bool) (node : Json) : List Edge :=
  match nodeIdOf node with
  | none => []
  | some to_id =>
    match Json.get node keyInputs with
    | some (.arr inputs) => edgesOfInputs json_inputs to_id 0 inputs
    | _ => []

/-- The full derived edge list of graph_json_from_pxc. -/
def derivedEdges (json_inputs : Bool) (nodes : List Json) : List Edge :=
  nodes.flatMap (edgesOfNode json_inputs)

/-- extract_input_value: r.d if r is an object carrying d, else r itself if
it is an array, else nothing. -/
def extract_input_value (input : Json) : Option Json :=
  match Json.get input keyR with
  | none => none
  | some r =>
    match r with
    | .obj fields =>
      match lookupField fields keyD with
      | some d => some d
      | none => if r.isArr then some r else none
    | _ => if r.isArr then some r else none

/-- anim_meta_map: the animated-flag metadata attached to a port entry. -/
def anim_meta_map (anim : Bool) (key_count : Option Nat)
    (raw_anim : Option Json) (mode : GraphMode) :
    Option (List (Str × Json)) :=
  if !anim then none
  else
    let m : List (Str × Json) := [(keyAn, .bool true)]
    let m := match key_count with
      | some kc => setField m keyK (.num kc)
      | none => m
    let m :=
      if mode = .full then
        match raw_anim with
        | some raw => setField m keyAd raw
        | none => m
      else m
    some m

/-- extract_input_value_with_anim: literal value plus animation metadata of
an input slot. -/
def extract_input_value_with_anim (input : Json) (mode : GraphMode) :
    Option Json × Option (List (Str × Json)) :=
  match Json.get input keyR with
  | some r =>
    match r with
    | .obj fields =>
      match lookupField fields keyD with
      | some d =>
        (some d, anim_meta_map false (some 1)
          (if mode = .full then some r else none) mode)
      | none => (none, anim_meta_map true none none mode)
    | .arr elems =>
      (some r, anim_meta_map true (some elems.length)
        (if mode = .full then some r else none) mode)
    | _ =>
      let animFlag := match (Json.get input keyAnim).bind Json.asBool with
        | some b => b
        | none => false
      (extract_input_value input, anim_meta_map animFlag none none mode)
  | none =>
    let animFlag := match (Json.get input keyAnim).bind Json.asBool with
      | some b => b
      | none => false
    (extract_input_value input, anim_meta_map animFlag none none mode)

/-- extract_connection: the connection entry of a port dump, with the
source id shortened unless full_ids is set. -/
def extract_connection (input : Json) (full_ids : Bool)
    (id_map : List (Str × Json)) : Option Json :=
  match connOf input with
  | none => none
  | some (from_node, from_index, from_tag) =>
    let from_id :=
      if full_ids then from_node
      else
        match short_for_id id_map from_node with
        | some s => s
        | none => from_node
    let m : List (Str × Json) := [([102], .str from_id), ([102, 111], .num from_index)]
    let m := match from_tag with
      | some tag => setField m [116, 103] (.num tag)
      | none => m
    some (.obj m)

/-- The per-input port entry built by build_node_dump (the body of the
inputs loop, before the mode-dependent include decision): slot index,
registry name/type, literal value unless it is the placeholder -4,
animation metadata, connection, attributes, raw slot. -/
def buildInputEntry (reg_node : Option RegistryNode) (mode : GraphMode)
    (json_inputs full_ids : Bool) (id_map : List (Str × Json))
    (i : Nat) (input : Json) : List (Str × Json) :=
  let entry : List (Str × Json) := [(keyS, .num i)]
  let entry :=
    match reg_node with
    | none => entry
    | some rn =>
      match rn.inputs.get? i with
      | none => entry
      | some rin =>
        let entry := match rin.name with
          | some nm => setField entry keyN (.str nm)
          | none => entry
        match rin.ty with
        | some tp =>
          if tp ≠ strUnknown ∧ tp ≠ strOutput then setField entry keyT (.str tp)
          else entry
        | none => entry
  let va := extract_input_value_with_anim input mode
  let entry :=
    match va.1 with
    | some v => if isPlaceholderNeg4 v then entry else setField entry keyV v
    | none => entry
  let entry :=
    match va.2 with
    | some meta => meta.foldl (fun e kv => setField e kv.1 kv.2) entry
    | none => entry
  let entry :=
    match extract_connection input full_ids id_map with
    | some conn => setField entry keyC conn
    | none => entry
  let entry :=
    match Json.get input keyAttri with
    | some attri => setField entry keyA attri
    | none => entry
  if json_inputs then setField entry keyRaw input else entry

/-! ### Concrete codec instances used by closed witnesses

These instantiate the external-codec parameters with minimal functions that
satisfy, at the concrete inputs of the witnesses, exactly the properties
the real zlib / serde_json codecs have there (a compressor inverted by its
decompressor; a serializer of the witness document inverted by the parser;
lossy UTF-8 decoding that is the identity on valid UTF-8). -/

def wZlibCompress : List Nat → List Nat := fun s => s

def wZlibDecompress : List Nat → Option (List Nat) := fun s => some s

/-- A decompressor that always fails, for witnesses exercising the
raw-bytes fallback (zlib inflate fails on non-zlib data). -/
def wZlibDecompressFail : List Nat → Option (List Nat) := fun _ => none

def wLossyDecode : List Nat → Str := fun s => s

/-- Serializer used by witnesses: constant serialization of the single
witness document (the number 1, serialized as the byte of the digit 1). -/
def wJsonToString : Json → Str := fun _ => [49]

def wJsonToStringPretty : Json → Str := fun _ => [49]

/-- Parser matching wJsonToString on its range, as serde_json does. -/
def wJsonFromStr : Str → Option Json := fun s =>
  if s = [49] then some (.num 1) else none

/-! ### Helper lemmas -/

theorem readU32_writeU32le (n : Nat) (rest : List Nat) :
    readU32 (writeU32le n ++ rest) = n % 4294967296 := by
  simp only [writeU32le, readU32, List.cons_append, List.nil_append]
  omega

theorem writeU32le_length (n : Nat) : (writeU32le n).length = 4 := by
  simp [writeU32le]

theorem takeWhile_ne_zero_append (l rest : List Nat) (h : (0 : Nat) ∉ l) :
    (l ++ 0 :: rest).takeWhile (fun b => b ≠ 0) = l := by
  induction l with
  | nil => simp [List.takeWhile]
  | cons c cs ih =>
    simp only [List.mem_cons, not_or] at h
    simp only [List.cons_append, List.takeWhile_cons]
    have hc : (decide ¬c = 0) = true := by
      simp [h.1, Ne.symm h.1]
    simp only [hc, if_true]
    rw [ih h.2]

theorem lookup_setField_self (fs : List (Str × Json)) (k : Str) (v : Json) :
    lookupField (setField fs k v) k = some v := by
  induction fs with
  | nil => simp [setField, lookupField]
  | cons p rest ih =>
    obtain ⟨k1, v1⟩ := p
    by_cases h : k1 = k
    · simp [setField, lookupField, h]
    · simp [setField, lookupField, h, ih]

theorem lookup_setField_ne (fs : List (Str × Json)) (k k' : Str) (v : Json)
    (h : k' ≠ k) : lookupField (setField fs k v) k' = lookupField fs k' := by
  have hkk : k ≠ k' := Ne.symm h
  induction fs with
  | nil => simp [setField, lookupField, hkk]
  | cons p rest ih =>
    obtain ⟨k1, v1⟩ := p
    by_cases h1 : k1 = k
    · subst h1
      simp [setField, lookupField, hkk]
    · simp only [setField, h1, if_false, lookupField]
      by_cases h2 : k1 = k'
      · simp [h2]
      · simp [h2, ih]

theorem getD_set_self (l : List Json) (i : Nat) (a d : Json)
    (h : i < l.length) : (l.set i a).getD i d = a := by
  induction l generalizing i with
  | nil => simp at h
  | cons x xs ih =>
    cases i with
    | zero => simp [List.set, List.getD]
    | succ n =>
      simp only [List.length_cons] at h
      simpa [List.set, List.getD] using ih n (by omega)

/-! ### Short-id lemmas -/

theorem shortIdDigitsFuel_ne_nil (fuel n : Nat) :
    shortIdDigitsFuel fuel n ≠ [] := by
  cases fuel with
  | zero => simp [shortIdDigitsFuel]
  | succ f =>
    simp only [shortIdDigitsFuel]
    split <;> simp

theorem decodeLSF_shortIdDigitsFuel (fuel : Nat) :
    ∀ n, n < fuel → decodeLSF (shortIdDigitsFuel fuel n) = n := by
  induction fuel with
  | zero => intro n h; omega
  | succ f ih =>
    intro n h
    simp only [shortIdDigitsFuel]
    by_cases hq : n / 26 = 0
    · simp only [hq, if_true]
      have : n % 26 = n := by omega
      simp [decodeLSF, this]
    · simp only [hq, if_false]
      have hlt : n / 26 - 1 < f := by omega
      have hrec := ih (n / 26 - 1) hlt
      obtain ⟨x, xs, hx⟩ :=
        List.exists_cons_of_ne_nil (shortIdDigitsFuel_ne_nil f (n / 26 - 1))
      rw [hx] at hrec ⊢
      have : decodeLSF (n % 26 :: x :: xs) =
          n % 26 + 26 * (decodeLSF (x :: xs) + 1) := rfl
      rw [this, hrec]
      omega

theorem setField_setField_same (fs : List (Str × Json)) (k : Str) (v v2 : Json) :
    setField (setField fs k v) k v2 = setField fs k v2 := by
  induction fs with
  | nil => simp [setField]
  | cons p rest ih =>
    obtain ⟨k1, v1⟩ := p
    by_cases h : k1 = k
    · simp [setField, h]
    · simp [setField, h, ih]

/-- Claim C5: the bijective base-26 codes of short_id are inverted exactly
by the bijective-numeration decoder, and short_id is injective (hence all
codes over any initial segment, in particular one of size at least 10000,
are pairwise distinct). -/
theorem short_id_bijective :
    (∀ n, decode_short_id (short_id n) = n) ∧
    (∀ m n : Nat, short_id m = short_id n → m = n) := by
  have hdec : ∀ n, decode_short_id (short_id n) = n := by
    intro n
    unfold short_id decode_short_id
    rw [List.reverse_reverse, List.map_map]
    have hid : ((fun c => c - 65) ∘ fun d => 65 + d) = id := by
      funext d
      simp
    rw [hid, List.map_id]
    exact decodeLSF_shortIdDigitsFuel (n + 1) n (Nat.lt_succ_self n)
  refine ⟨hdec, ?_⟩
  intro m n h
  have hm := hdec m
  rw [h, hdec n] at hm
  exact hm.symm

/-- Witness for C5 at concrete inputs, including one at the top of the
10000-code range of the claim. -/
theorem short_id_bijective_witness :
    decode_short_id (short_id 9999) = 9999 ∧ (703 : Nat) = 703 :=
  ⟨short_id_bijective.1 9999, short_id_bijective.2 703 703 rfl⟩

/-- Claim C8: remove_json_pointer fails with a not-found error when an
intermediate object key or a referenced array index is missing, deletes a
final object key outright, sets a final array index to null without
changing the array length, and on the spec's concrete document turns
arr index 1 into null keeping length 2. -/
theorem remove_pointer_semantics :
    (∀ (fields : List (Str × Json)) (key : Str) (rest : List Str),
      rest ≠ [] → lookupField fields key = none →
      removeTokens (.obj fields) (key :: rest) = .error .pointerNotFound) ∧
    (∀ (elems : List Json) (keyStr : Str) (idx : Nat) (rest : List Str),
      parseArrayIndex keyStr = some idx → elems.length ≤ idx →
      removeTokens (.arr elems) (keyStr :: rest) = .error .pointerNotFound) ∧
    (∀ (fields : List (Str × Json)) (key : Str),
      removeTokens (.obj fields) [key] = .ok (.obj (eraseField fields key))) ∧
    (∀ (elems : List Json) (keyStr : Str) (idx : Nat),
      parseArrayIndex keyStr = some idx → idx < elems.length →
      removeTokens (.arr elems) [keyStr] = .ok (.arr (elems.set idx .null)) ∧
        (elems.set idx Json.null).length = elems.length) ∧
    remove_json_pointer (.obj [([97, 114, 114], .arr [.num 1, .num 2])])
        [47, 97, 114, 114, 47, 49] =
      .ok (.obj [([97, 114, 114], .arr [.num 1, .null])]) := by
  refine ⟨?_, ?_, ?_, ?_, ?_⟩
  · intro fields key rest hr hl
    obtain ⟨a, as1, rfl⟩ := List.exists_cons_of_ne_nil hr
    simp [removeTokens, hl]
  · intro elems keyStr idx rest hp hlen
    simp [removeTokens, hp, hlen]
  · intro fields key
    simp [removeTokens]
  · intro elems keyStr idx hp hlen
    constructor
    · simp [removeTokens, hp, Nat.not_le.mpr hlen]
    · simp
  · rfl

/-- Witness for C8 at concrete inputs. -/
theorem remove_pointer_semantics_witness :
    removeTokens (Json.obj []) ([107] :: [[107]]) = .error .pointerNotFound ∧
    removeTokens (Json.arr []) [[48]] = .error .pointerNotFound ∧
    removeTokens (Json.obj [([107], Json.num 1)]) [[107]] = .ok (Json.obj []) ∧
    removeTokens (Json.arr [Json.num 5]) [[48]] = .ok (Json.arr [Json.null]) := by
  refine ⟨?_, ?_, ?_, ?_⟩
  · exact remove_pointer_semantics.1 [] [107] [[107]] (by decide) rfl
  · exact remove_pointer_semantics.2.1 [] [48] 0 [] rfl (by decide)
  · exact remove_pointer_semantics.2.2.1 [([107], Json.num 1)] [107]
  · exact (remove_pointer_semantics.2.2.2.1 [Json.num 5] [48] 0 rfl (by decide)).1

/-- Claim C9: set_json_pointer creates missing intermediate objects when
traversing objects, grows arrays with null padding up to the needed index,
replaces a null at an intermediate array position with an empty object
before continuing, overwrites or creates the final key or index, and on
the spec's concrete document extends arr to length 6 with nulls at 2..4
and 9 at index 5. -/
theorem set_pointer_semantics :
    (∀ (fields : List (Str × Json)) (key : Str) (rest : List Str) (value : Json),
      rest ≠ [] → lookupField fields key = none →
      setTokens (.obj fields) (key :: rest) value =
        match setTokens (.obj []) rest value with
        | .ok c2 => .ok (.obj (setField fields key c2))
        | .error e => .error e) ∧
    (∀ (elems : List Json) (keyStr : Str) (idx : Nat) (value : Json),
      parseArrayIndex keyStr = some idx → elems.length ≤ idx →
      setTokens (.arr elems) [keyStr] value =
        .ok (.arr ((elems ++ List.replicate (idx + 1 - elems.length) Json.null).set idx value)) ∧
        ((elems ++ List.replicate (idx + 1 - elems.length) Json.null).set idx value).length
          = idx + 1) ∧
    (∀ (elems : List Json) (keyStr : Str) (idx : Nat) (rest : List Str) (value : Json),
      parseArrayIndex keyStr = some idx → idx < elems.length →
      elems.getD idx .null = .null → rest ≠ [] →
      setTokens (.arr elems) (keyStr :: rest) value =
        match setTokens (.obj []) rest value with
        | .ok c3 => .ok (.arr (elems.set idx c3))
        | .error e => .error e) ∧
    (∀ (fields : List (Str × Json)) (key : Str) (value : Json),
      setTokens (.obj fields) [key] value = .ok (.obj (setField fields key value))) ∧
    set_json_pointer (.obj [([97, 114, 114], .arr [.num 1, .num 2])])
        [47, 97, 114, 114, 47, 53] (.num 9) =
      .ok (.obj [([97, 114, 114],
        .arr [.num 1, .num 2, .null, .null, .null, .num 9])]) := by
  refine ⟨?_, ?_, ?_, ?_, ?_⟩
  · intro fields key rest value hr hl
    obtain ⟨a, as1, rfl⟩ := List.exists_cons_of_ne_nil hr
    simp only [setTokens, List.isEmpty_cons, if_false, hl, Option.isSome_none,
      Bool.false_eq_true, lookup_setField_self, Option.getD_some]
    cases hset : setTokens (.obj []) (a :: as1) value <;>
      simp [setField_setField_same]
  · intro elems keyStr idx value hp hlen
    constructor
    · simp [setTokens, hp, hlen]
    · simp only [List.length_set, List.length_append, List.length_replicate]
      omega
  · intro elems keyStr idx rest value hp hlen hnull hr
    obtain ⟨a, as1, rfl⟩ := List.exists_cons_of_ne_nil hr
    simp only [setTokens, hp, List.isEmpty_cons, if_false, Nat.not_le.mpr hlen,
      hnull]
    cases hset : setTokens (.obj []) (a :: as1) value <;> simp [Json.isNull]
  · intro fields key value
    simp [setTokens]
  · rfl

/-- Witness for C9 at concrete inputs. -/
theorem set_pointer_semantics_witness :
    setTokens (.obj []) ([107] :: [[106]]) (.num 1) =
      .ok (.obj [([107], .obj [([106], .num 1)])]) ∧
    setTokens (.arr []) [[49]] (.num 7) = .ok (.arr [.null, .num 7]) ∧
    setTokens (.arr [.null]) ([48] :: [[106]]) (.num 2) =
      .ok (.arr [.obj [([106], .num 2)]]) ∧
    setTokens (.obj [([107], .num 1)]) [[107]] (.num 2) =
      .ok (.obj [([107], .num 2)]) := by
  refine ⟨?_, ?_, ?_, ?_⟩
  · have h := set_pointer_semantics.1 [] [107] [[106]] (.num 1) (by decide) rfl
    rw [h]
    rfl
  · have h := (set_pointer_semantics.2.1 [] [49] 1 (.num 7) rfl (by decide)).1
    rw [h]
    rfl
  · have h := set_pointer_semantics.2.2.1 [.null] [48] 0 [[106]] (.num 2) rfl
      (by decide) rfl (by decide)
    rw [h]
    rfl
  · exact set_pointer_semantics.2.2.2.1 [([107], .num 1)] [107] (.num 2)

/-- Claim C2: with the container magic in place, parse_pxc fails with a
MalformedContainer-class error whenever the declared header size is below 8
or beyond the input length, whenever fewer than 8 bytes remain before
header_size where a chunk tag and length are expected, and whenever a
declared chunk length exceeds the bytes remaining before header_size; in
particular a header declaring size 100 over a shorter buffer fails this
way, and every framing error is in the MalformedContainer class. -/
theorem parse_defensive_framing
    (zlibDecompress : List Nat → Option (List Nat))
    (jsonFromStr : Str → Option Json) (lossyDecode : List Nat → Str) :
    (∀ data : List Nat, data.take 4 = magicBytes → data.length < 8 →
      parse_pxc zlibDecompress jsonFromStr lossyDecode data =
        .error .fileTooSmall) ∧
    (∀ data : List Nat, data.take 4 = magicBytes → 8 ≤ data.length →
      readU32 (data.drop 4) < 8 →
      parse_pxc zlibDecompress jsonFromStr lossyDecode data =
        .error .headerSizeTooSmall) ∧
    (∀ data : List Nat, data.take 4 = magicBytes → 8 ≤ data.length →
      data.length < readU32 (data.drop 4) →
      parse_pxc zlibDecompress jsonFromStr lossyDecode data =
        .error .headerSizeBeyondFile) ∧
    (∀ (fuel : Nat) (data : List Nat) (hs pos : Nat)
      (t : Option Thumbnail) (m : Option Meta),
      pos < hs → hs - pos < 8 →
      parseChunksFuel lossyDecode (fuel + 1) data hs pos t m =
        .error .truncatedChunkHeader) ∧
    (∀ (fuel : Nat) (data : List Nat) (hs pos : Nat)
      (t : Option Thumbnail) (m : Option Meta),
      pos + 8 ≤ hs → hs < pos + 8 + readU32 (data.drop (pos + 4)) →
      parseChunksFuel lossyDecode (fuel + 1) data hs pos t m =
        .error .chunkLengthExceedsHeader) ∧
    (∀ data : List Nat, data.take 4 = magicBytes →
      readU32 (data.drop 4) = 100 → data.length < 100 →
      ∃ e, parse_pxc zlibDecompress jsonFromStr lossyDecode data = .error e ∧
        e.isMalformedContainer = true) ∧
    (PxcError.fileTooSmall.isMalformedContainer = true ∧
     PxcError.headerSizeTooSmall.isMalformedContainer = true ∧
     PxcError.headerSizeBeyondFile.isMalformedContainer = true ∧
     PxcError.truncatedChunkHeader.isMalformedContainer = true ∧
     PxcError.chunkLengthExceedsHeader.isMalformedContainer = true) := by
  refine ⟨?_, ?_, ?_, ?_, ?_, ?_, ?_⟩
  · intro data _ h
    simp [parse_pxc, h]
  · intro data hm h8 hhs
    simp [parse_pxc, hm, Nat.not_lt.mpr h8, hhs]
  · intro data hm h8 hlt
    have haux : ¬ readU32 (data.drop 4) < 8 := by omega
    simp [parse_pxc, hm, Nat.not_lt.mpr h8, haux, hlt]
  · intro fuel data hs pos t m h1 h2
    simp [parseChunksFuel, h1, h2]
  · intro fuel data hs pos t m h1 h2
    have ha : pos < hs := by omega
    have hb : ¬ hs - pos < 8 := by omega
    have hc : readU32 (data.drop (pos + 4)) > hs - (pos + 8) := by omega
    simp [parseChunksFuel, ha, hb, hc]
  · intro data hm h100 hlen
    by_cases hsmall : data.length < 8
    · exact ⟨.fileTooSmall, by simp [parse_pxc, hsmall], rfl⟩
    · refine ⟨.headerSizeBeyondFile, ?_, rfl⟩
      have haux : ¬ readU32 (data.drop 4) < 8 := by omega
      have hlt : data.length < readU32 (data.drop 4) := by omega
      simp [parse_pxc, hm, hsmall, haux, hlt]
  · exact ⟨rfl, rfl, rfl, rfl, rfl⟩

/-- Witness for C2 at concrete byte inputs, including the spec's
header_size-100-over-a-short-buffer case. -/
theorem parse_defensive_framing_witness :
    parse_pxc wZlibDecompress wJsonFromStr wLossyDecode [80, 88, 67, 88] =
      .error .fileTooSmall ∧
    parse_pxc wZlibDecompress wJsonFromStr wLossyDecode
        [80, 88, 67, 88, 0, 0, 0, 0] = .error .headerSizeTooSmall ∧
    parse_pxc wZlibDecompress wJsonFromStr wLossyDecode
        [80, 88, 67, 88, 9, 0, 0, 0] = .error .headerSizeBeyondFile ∧
    parseChunksFuel wLossyDecode 1 [] 9 8 none none =
      .error .truncatedChunkHeader ∧
    parseChunksFuel wLossyDecode 1
        [0, 0, 0, 0, 0, 0, 0, 0, 0, 0, 0, 0, 9, 0, 0, 0] 16 8 none none =
      .error .chunkLengthExceedsHeader ∧
    (∃ e, parse_pxc wZlibDecompress wJsonFromStr wLossyDecode
        [80, 88, 67, 88, 100, 0, 0, 0] = .error e ∧
      e.isMalformedContainer = true) := by
  refine ⟨?_, ?_, ?_, ?_, ?_, ?_⟩
  · exact (parse_defensive_framing wZlibDecompress wJsonFromStr wLossyDecode).1
      [80, 88, 67, 88] rfl (by decide)
  · exact (parse_defensive_framing wZlibDecompress wJsonFromStr wLossyDecode).2.1
      [80, 88, 67, 88, 0, 0, 0, 0] rfl (by decide) (by decide)
  · exact (parse_defensive_framing wZlibDecompress wJsonFromStr wLossyDecode).2.2.1
      [80, 88, 67, 88, 9, 0, 0, 0] rfl (by decide) (by decide)
  · exact (parse_defensive_framing wZlibDecompress wJsonFromStr wLossyDecode).2.2.2.1
      0 [] 9 8 none none (by decide) (by decide)
  · exact (parse_defensive_framing wZlibDecompress wJsonFromStr wLossyDecode).2.2.2.2.1
      0 [0, 0, 0, 0, 0, 0, 0, 0, 0, 0, 0, 0, 9, 0, 0, 0] 16 8 none none
      (by decide) (by decide)
  · exact (parse_defensive_framing wZlibDecompress wJsonFromStr wLossyDecode).2.2.2.2.2.1
      [80, 88, 67, 88, 100, 0, 0, 0] rfl (by decide) (by decide)

/-- Claim C3, amended: inputs of at least 8 bytes whose first 4 bytes are
not the container magic go through the legacy-payload rule (decompress or
raw, zero-trim, lossy decode, JSON parse) with an empty header, succeeding
exactly when the JSON parse succeeds; inputs shorter than 8 bytes always
fail first, regardless of their content. -/
theorem legacy_fallback
    (zlibDecompress : List Nat → Option (List Nat))
    (jsonFromStr : Str → Option Json) (lossyDecode : List Nat → Str) :
    (∀ data : List Nat, data.length < 8 →
      parse_pxc zlibDecompress jsonFromStr lossyDecode data =
        .error .fileTooSmall) ∧
    (∀ data : List Nat, 8 ≤ data.length → data.take 4 ≠ magicBytes →
      parse_pxc zlibDecompress jsonFromStr lossyDecode data =
        match jsonFromStr (trim_cstr lossyDecode
            (zlibDecompOrRaw zlibDecompress data)) with
        | some j => .ok ⟨⟨none, none, 0⟩, j⟩
        | none => .error .jsonParseFailed) := by
  constructor
  · intro data h
    simp [parse_pxc, h]
  · intro data h8 hm
    unfold parse_pxc parse_payload
    rw [if_neg (by omega : ¬ data.length < 8), if_pos hm]
    cases hj : jsonFromStr (trim_cstr lossyDecode
        (zlibDecompOrRaw zlibDecompress data)) with
    | none => rfl
    | some j => rfl

/-- Witness for the amended C3: an 8-byte non-magic JSON-parsable input
goes through the legacy rule, and a short input fails. -/
theorem legacy_fallback_witness :
    parse_pxc wZlibDecompressFail
        (fun s => if s = [49, 49, 49, 49, 49, 49, 49, 49] then some (Json.num 11111111)
          else none)
        wLossyDecode [49, 49, 49, 49, 49, 49, 49, 49] =
      .ok ⟨⟨none, none, 0⟩, Json.num 11111111⟩ ∧
    parse_pxc wZlibDecompressFail wJsonFromStr wLossyDecode [49, 48] =
      .error .fileTooSmall := by
  constructor
  · have h := (legacy_fallback wZlibDecompressFail
      (fun s => if s = [49, 49, 49, 49, 49, 49, 49, 49] then some (Json.num 11111111)
        else none)
      wLossyDecode).2 [49, 49, 49, 49, 49, 49, 49, 49] (by decide) (by decide)
    rw [h]
    rfl
  · exact (legacy_fallback wZlibDecompressFail wJsonFromStr wLossyDecode).1
      [49, 48] (by decide)

/-- Counterexample to C3 as stated: a one-byte input that is valid JSON
under the payload rule (serde_json parses the single digit 1) is not given
the legacy treatment; parse_pxc rejects every input shorter than 8 bytes
before looking at the magic, so the claim's "regardless of the input's
length" fails. -/
theorem legacy_fallback_counterexample :
    [49].take 4 ≠ magicBytes ∧
    wJsonFromStr (trim_cstr wLossyDecode
        (zlibDecompOrRaw wZlibDecompressFail [49])) =
      some (Json.num 1) ∧
    parse_pxc wZlibDecompressFail wJsonFromStr wLossyDecode [49] =
      .error .fileTooSmall := by
  exact ⟨by decide, rfl, rfl⟩

/-- Claim C4, amended: with no carried meta, write_pxc emits a META chunk
exactly when the document's top-level version field exists as a number;
save_version is that number cast to u32 and version_string is the
versions field when it is a string, else the empty string (the versions
field being absent does not suppress the chunk). -/
theorem derive_meta_on_write (pxc : PxcFile) (h : pxc.header.meta = none) :
    ((effective_meta pxc).isSome ↔
      ∃ n : Int, (Json.get pxc.json keyVersion).bind Json.asI64 = some n) ∧
    (∀ n : Int, (Json.get pxc.json keyVersion).bind Json.asI64 = some n →
      effective_meta pxc = some ⟨(n % 4294967296).toNat,
        match (Json.get pxc.json keyVersions).bind Json.asStr with
        | some s => s
        | none => []⟩) := by
  constructor
  · cases hv : (Json.get pxc.json keyVersion).bind Json.asI64 with
    | none => simp [effective_meta, h, derive_meta_from_json, hv]
    | some n => simp [effective_meta, h, derive_meta_from_json, hv]
  · intro n hv
    simp [effective_meta, h, derive_meta_from_json, hv]

/-- Witness for the amended C4. -/
theorem derive_meta_on_write_witness :
    effective_meta ⟨⟨none, none, 0⟩,
        Json.obj [(keyVersion, Json.num 7), (keyVersions, Json.str [120])]⟩ =
      some ⟨7, [120]⟩ :=
  (derive_meta_on_write ⟨⟨none, none, 0⟩,
      Json.obj [(keyVersion, Json.num 7), (keyVersions, Json.str [120])]⟩ rfl).2 7 rfl

/-- Counterexample to C4 as stated: a document carrying version but no
versions field still makes write_pxc emit a META chunk (with empty
version_string), where the claim requires the chunk to be omitted unless
both fields exist; the emitted bytes show the META tag and its body. -/
theorem derive_meta_counterexample :
    Json.get (Json.obj [(keyVersion, Json.num 3)]) keyVersions = none ∧
    effective_meta ⟨⟨none, none, 0⟩, Json.obj [(keyVersion, Json.num 3)]⟩ =
      some ⟨3, []⟩ ∧
    write_pxc wZlibCompress wJsonToString wJsonToStringPretty
        ⟨⟨none, none, 0⟩, Json.obj [(keyVersion, Json.num 3)]⟩ true =
      [80, 88, 67, 88, 21, 0, 0, 0,
       77, 69, 84, 65, 5, 0, 0, 0, 3, 0, 0, 0, 0, 49, 0] := by
  exact ⟨rfl, rfl, rfl⟩

theorem edgesOfInputs_mem (json_inputs : Bool) (to_id : Str) :
    ∀ (l : List Json) (s : Nat) (e : Edge),
      e ∈ edgesOfInputs json_inputs to_id s l → e.t = to_id ∧ s ≤ e.ti := by
  intro l
  induction l with
  | nil =>
    intro s e h
    simp [edgesOfInputs] at h
  | cons input rest ih =>
    intro s e h
    simp only [edgesOfInputs, List.mem_append] at h
    cases h with
    | inl h1 =>
      cases hc : connOf input with
      | none =>
        rw [hc] at h1
        simp at h1
      | some c =>
        obtain ⟨fn, fi, ft⟩ := c
        rw [hc] at h1
        simp only [List.mem_singleton] at h1
        subst h1
        exact ⟨rfl, Nat.le_refl _⟩
    | inr h2 =>
      obtain ⟨ht, hs⟩ := ih (s + 1) e h2
      exact ⟨ht, by omega⟩

theorem edgesOfNode_target (json_inputs : Bool) (node : Json) (e : Edge)
    (h : e ∈ edgesOfNode json_inputs node) : nodeIdOf node = some e.t := by
  unfold edgesOfNode at h
  cases hid : nodeIdOf node with
  | none =>
    rw [hid] at h
    simp at h
  | some to_id =>
    rw [hid] at h
    cases hin : Json.get node keyInputs with
    | none =>
      rw [hin] at h
      simp at h
    | some r =>
      rw [hin] at h
      cases r with
      | arr l =>
        have ht := (edgesOfInputs_mem json_inputs to_id l 0 e h).1
        rw [ht]
      | null => simp at h
      | bool b => simp at h
      | num n => simp at h
      | str s => simp at h
      | obj fs => simp at h

theorem filter_flatMap_nil (p : Edge → Bool) (json_inputs : Bool) :
    ∀ ns : List Json, (∀ n ∈ ns, (edgesOfNode json_inputs n).filter p = []) →
      (ns.flatMap (edgesOfNode json_inputs)).filter p = [] := by
  intro ns
  induction ns with
  | nil => simp
  | cons n rest ih =>
    intro h
    simp only [List.flatMap_cons, List.filter_append]
    rw [h n (by simp), ih (fun x hx => h x (by simp [hx]))]
    rfl

theorem edgesOfInputs_filter (json_inputs : Bool) (to_id : Str) (idx : Nat)
    (input : Json) :
    ∀ (l : List Json) (s : Nat), s ≤ idx → l.get? (idx - s) = some input →
      (edgesOfInputs json_inputs to_id s l).filter
          (fun e => e.t == to_id && e.ti == idx) =
        (match connOf input with
         | some (fn, fi, ft) =>
           [⟨fn, fi, to_id, idx, ft, if json_inputs then some input else none⟩]
         | none => []) := by
  intro l
  induction l with
  | nil =>
    intro s hs hget
    simp at hget
  | cons inp rest ih =>
    intro s hs hget
    simp only [edgesOfInputs, List.filter_append]
    by_cases hsi : s = idx
    · subst hsi
      simp only [Nat.sub_self, List.get?_cons_zero, Option.some.injEq] at hget
      subst hget
      have hrest : (edgesOfInputs json_inputs to_id (s + 1) rest).filter
          (fun e => e.t == to_id && e.ti == s) = [] := by
        rw [List.filter_eq_nil_iff]
        intro e he
        have hti := (edgesOfInputs_mem json_inputs to_id rest (s + 1) e he).2
        have : (e.ti == s) = false := by
          simp only [beq_eq_false_iff_ne, ne_eq]
          omega
        simp [this]
      rw [hrest]
      cases hc : connOf inp with
      | none => simp
      | some c =>
        obtain ⟨fn, fi, ft⟩ := c
        simp
    · have hlt : s < idx := by omega
      have heq : idx - s = (idx - (s + 1)) + 1 := by omega
      rw [heq, List.get?_cons_succ] at hget
      have htail := ih (s + 1) (by omega) hget
      have hsidx : (s == idx) = false := by
        simp only [beq_eq_false_iff_ne, ne_eq]
        omega
      cases hc : connOf inp with
      | none =>
        simpa using htail
      | some c =>
        obtain ⟨fn, fi, ft⟩ := c
        simpa [hsidx] using htail

/-- Claim C6: with pairwise-distinct node ids, edge derivation emits, for
each (node, input slot) pair, exactly the one edge carried by that slot's
from_node/from_index connection (with its optional tag), and nothing for
slots without a full connection; no edges are merged across slots, and
deriving twice from the same document yields the identical edge list. -/
theorem edge_derivation (json_inputs : Bool) (nodes pre post : List Json)
    (node : Json) (i : Str) (l : List Json) (idx : Nat) (input : Json)
    (hnodes : nodes = pre ++ node :: post)
    (huniq : (nodes.filterMap nodeIdOf).Pairwise (· ≠ ·))
    (hid : nodeIdOf node = some i)
    (hinputs : Json.get node keyInputs = some (.arr l))
    (hslot : l.get? idx = some input) :
    ((derivedEdges json_inputs nodes).filter
        (fun e => e.t == i && e.ti == idx) =
      (match connOf input with
       | some (fn, fi, ft) =>
         [⟨fn, fi, i, idx, ft, if json_inputs then some input else none⟩]
       | none => [])) ∧
    derivedEdges json_inputs nodes = derivedEdges json_inputs nodes := by
  refine ⟨?_, rfl⟩
  subst hnodes
  have hids : ((pre ++ node :: post).filterMap nodeIdOf) =
      pre.filterMap nodeIdOf ++ i :: post.filterMap nodeIdOf := by
    rw [List.filterMap_append, List.filterMap_cons, hid]
  rw [hids, List.pairwise_append] at huniq
  obtain ⟨hpre, hcons, hcross⟩ := huniq
  rw [List.pairwise_cons] at hcons
  obtain ⟨hpost, _⟩ := hcons
  have hne_pre : ∀ n' ∈ pre, ∀ j, nodeIdOf n' = some j → j ≠ i := by
    intro n' hn' j hj
    exact hcross j (List.mem_filterMap.mpr ⟨n', hn', hj⟩) i (by simp)
  have hne_post : ∀ n' ∈ post, ∀ j, nodeIdOf n' = some j → j ≠ i := by
    intro n' hn' j hj
    exact fun e => (hpost j (List.mem_filterMap.mpr ⟨n', hn', hj⟩)) e.symm
  have hnil : ∀ n', (∀ j, nodeIdOf n' = some j → j ≠ i) →
      (edgesOfNode json_inputs n').filter (fun e => e.t == i && e.ti == idx) = [] := by
    intro n' hj
    rw [List.filter_eq_nil_iff]
    intro e he
    have ht := edgesOfNode_target json_inputs n' e he
    have : (e.t == i) = false := by
      simp only [beq_eq_false_iff_ne, ne_eq]
      exact hj e.t ht
    simp [this]
  unfold derivedEdges
  rw [List.flatMap_append, List.flatMap_cons, List.filter_append,
    List.filter_append]
  rw [filter_flatMap_nil _ json_inputs pre (fun n' hn' => hnil n' (hne_pre n' hn')),
    filter_flatMap_nil _ json_inputs post (fun n' hn' => hnil n' (hne_post n' hn'))]
  rw [List.nil_append, List.append_nil]
  unfold edgesOfNode
  rw [hid, hinputs]
  exact edgesOfInputs_filter json_inputs i idx input l 0 (Nat.zero_le idx)
    (by simpa using hslot)

/-- Witness for C6: the spec's two-node document yields exactly the one
edge n1 out 0 to n2 in 0. -/
theorem edge_derivation_witness :
    (derivedEdges false
        [Json.obj [(keyId, Json.str [110, 49])],
         Json.obj [(keyId, Json.str [110, 50]),
           (keyInputs, Json.arr [Json.obj [(keyFromNode, Json.str [110, 49]),
             (keyFromIndex, Json.num 0)]])]]).filter
        (fun e => e.t == [110, 50] && e.ti == 0) =
      [⟨[110, 49], 0, [110, 50], 0, none, none⟩] := by
  have h := (edge_derivation false
    [Json.obj [(keyId, Json.str [110, 49])],
     Json.obj [(keyId, Json.str [110, 50]),
       (keyInputs, Json.arr [Json.obj [(keyFromNode, Json.str [110, 49]),
         (keyFromIndex, Json.num 0)]])]]
    [Json.obj [(keyId, Json.str [110, 49])]] []
    (Json.obj [(keyId, Json.str [110, 50]),
      (keyInputs, Json.arr [Json.obj [(keyFromNode, Json.str [110, 49]),
        (keyFromIndex, Json.num 0)]])])
    [110, 50]
    [Json.obj [(keyFromNode, Json.str [110, 49]), (keyFromIndex, Json.num 0)]]
    0
    (Json.obj [(keyFromNode, Json.str [110, 49]), (keyFromIndex, Json.num 0)])
    rfl (by decide) rfl rfl rfl).1
  rw [h]
  rfl

theorem json_get_some_obj {j : Json} {k : Str} {v : Json}
    (h : Json.get j k = some v) : ∃ fs, j = Json.obj fs := by
  cases j with
  | obj fs => exact ⟨fs, rfl⟩
  | null => simp [Json.get] at h
  | bool b => simp [Json.get] at h
  | num n => simp [Json.get] at h
  | str s => simp [Json.get] at h
  | arr es => simp [Json.get] at h

theorem findNodeIdxAux_getD : ∀ (nodes : List Json) (nid : Str) (idx : Nat),
    findNodeIdxAux nodes nid = some idx →
    nodeIdOf (nodes.getD idx Json.null) = some nid ∧ idx < nodes.length := by
  intro nodes
  induction nodes with
  | nil =>
    intro nid idx h
    simp [findNodeIdxAux] at h
  | cons n rest ih =>
    intro nid idx h
    by_cases hn : nodeIdOf n = some nid
    · simp only [findNodeIdxAux, hn, if_true, Option.some.injEq] at h
      subst h
      exact ⟨by simpa [List.getD] using hn, by simp⟩
    · simp only [findNodeIdxAux, hn, if_false] at h
      cases hr : findNodeIdxAux rest nid with
      | none =>
        rw [hr] at h
        simp at h
      | some j =>
        rw [hr] at h
        simp at h
        subst h
        obtain ⟨h1, h2⟩ := ih nid j hr
        refine ⟨by simpa [List.getD] using h1, ?_⟩
        simp only [List.length_cons]
        omega

theorem findNodeById_set (newNode : Json) (nid : Str)
    (hnn : nodeIdOf newNode = some nid) :
    ∀ (nodes : List Json) (idx : Nat), findNodeIdxAux nodes nid = some idx →
    findNodeById (nodes.set idx newNode) nid = some newNode := by
  intro nodes
  induction nodes with
  | nil =>
    intro idx h
    simp [findNodeIdxAux] at h
  | cons n rest ih =>
    intro idx h
    by_cases hn : nodeIdOf n = some nid
    · simp only [findNodeIdxAux, hn, if_true, Option.some.injEq] at h
      subst h
      simp [List.set, findNodeById, hnn]
    · simp only [findNodeIdxAux, hn, if_false] at h
      cases hr : findNodeIdxAux rest nid with
      | none =>
        rw [hr] at h
        simp at h
      | some j =>
        rw [hr] at h
        simp at h
        subst h
        simpa [List.set, findNodeById, hn] using ih j hr

/-- Claim C7: on every successful set_input_value call, the value stored
under the slot's r.d is exactly the gradient-branch re-encoding: the
JSON-encoded string of the supplied value when the registry declares the
resolved port type as containing "gradient" and the value is not already a
string, and the supplied value unchanged when it is a string or the port
type does not contain "gradient". -/
theorem gradient_quirk (jsonToString : Json → Str) (pxc : PxcFile)
    (node_arg : Str) (input_slot : Option Nat) (input_name : Option Str)
    (value : Json) (registry : Option Registry) (pxc' : PxcFile)
    (nodes : List Json) (node_id : Str) (idx slot : Nat)
    (hok : set_input_value_in_pxc jsonToString pxc node_arg input_slot
      input_name value registry = .ok pxc')
    (hnodes : Json.get pxc.json keyNodes = some (.arr nodes))
    (hres : resolve_node_id node_arg nodes = some node_id)
    (hidx : findNodeIdxAux nodes node_id = some idx)
    (hslot : resolve_input_slot (nodes.getD idx .null) input_slot input_name
      registry = .ok slot) :
    storedInputR pxc' node_id slot =
      some (.obj [(keyD, gradient_final_value jsonToString registry
        (nodeTypeOf (nodes.getD idx .null)) slot value)]) ∧
    (∀ (reg : Registry) (reg_node : RegistryNode) (port : RegistryPort) (ty : Str),
      registry = some reg →
      lookupRegNode reg.nodes (nodeTypeOf (nodes.getD idx .null)) = some reg_node →
      reg_node.inputs.get? slot = some port → port.ty = some ty →
      strContains (toAsciiLower ty) strGradient = true →
      value.isString = false →
      gradient_final_value jsonToString registry
          (nodeTypeOf (nodes.getD idx .null)) slot value =
        .str (jsonToString value)) ∧
    (value.isString = true →
      gradient_final_value jsonToString registry
          (nodeTypeOf (nodes.getD idx .null)) slot value = value) ∧
    (∀ (reg : Registry) (reg_node : RegistryNode) (port : RegistryPort) (ty : Str),
      registry = some reg →
      lookupRegNode reg.nodes (nodeTypeOf (nodes.getD idx .null)) = some reg_node →
      reg_node.inputs.get? slot = some port → port.ty = some ty →
      strContains (toAsciiLower ty) strGradient = false →
      gradient_final_value jsonToString registry
          (nodeTypeOf (nodes.getD idx .null)) slot value = value) := by
  refine ⟨?_, ?_, ?_, ?_⟩
  · simp only [set_input_value_in_pxc, hnodes, hres, hidx, hslot] at hok
    cases hin : Json.get (nodes.getD idx .null) keyInputs with
    | none =>
      simp only [hin] at hok
      simp at hok
    | some r =>
      simp only [hin] at hok
      cases r with
      | arr inputs =>
        cases hobj : (inputs ++
            List.replicate (slot + 1 - inputs.length) (Json.obj [])).getD slot
            Json.null with
        | obj inputFields =>
          simp only [hobj] at hok
          simp only [Except.ok.injEq] at hok
          subst hok
          obtain ⟨fs, hfs⟩ := json_get_some_obj hnodes
          obtain ⟨nfs, hnfs⟩ := json_get_some_obj hin
          have hnodeid : nodeIdOf (nodes.getD idx Json.null) = some node_id :=
            (findNodeIdxAux_getD nodes node_id idx hidx).1
          have hnewid : ∀ X, nodeIdOf (Json.obj (setField nfs keyInputs X)) =
              some node_id := by
            intro X
            have h0 : nodeIdOf (Json.obj nfs) = some node_id := by
              rw [← hnfs]
              exact hnodeid
            simp only [nodeIdOf, Json.get] at h0 ⊢
            rw [lookup_setField_ne nfs keyInputs keyId _ (by decide)]
            exact h0
          simp only [storedInputR, hfs, hnfs, setJsonField, Json.get,
            lookup_setField_self]
          rw [findNodeById_set _ node_id (hnewid _) nodes idx hidx]
          simp only [lookup_setField_self]
          rw [getD_set_self _ slot _ _ (by
            simp only [List.length_append, List.length_replicate]
            omega)]
          simp only [lookup_setField_self]
        | null =>
          simp only [hobj] at hok
          simp at hok
        | bool b =>
          simp only [hobj] at hok
          simp at hok
        | num n =>
          simp only [hobj] at hok
          simp at hok
        | str s =>
          simp only [hobj] at hok
          simp at hok
        | arr es =>
          simp only [hobj] at hok
          simp at hok
      | null => simp at hok
      | bool b => simp at hok
      | num n => simp at hok
      | str s => simp at hok
      | obj fs2 => simp at hok
  · intro reg reg_node port ty hreg hrn hport hty hgrad hstr
    subst hreg
    simp only [gradient_final_value, hrn, hport, hty, hgrad, hstr]
    simp
  · intro hstr
    simp only [gradient_final_value, hstr]
    simp
  · intro reg reg_node port ty hreg hrn hport hty hgrad
    subst hreg
    simp only [gradient_final_value, hrn, hport, hty, hgrad]
    simp

/-- Witness for C7: setting a structured value on a port whose registry
type is Gradient stores its JSON-string serialization under r.d. -/
theorem gradient_quirk_witness :
    storedInputR
        ⟨⟨none, none, 0⟩, Json.obj [(keyNodes, Json.arr [Json.obj
          [(keyId, Json.str [97]), (keyType, Json.str [84]),
           (keyInputs, Json.arr [Json.obj [(keyR,
             Json.obj [(keyD, Json.str [49])])]])]])]⟩
        [97] 0 = some (Json.obj [(keyD, Json.str [49])]) := by
  have h := (gradient_quirk wJsonToString
    ⟨⟨none, none, 0⟩, Json.obj [(keyNodes, Json.arr [Json.obj
      [(keyId, Json.str [97]), (keyType, Json.str [84]),
       (keyInputs, Json.arr [Json.obj []])]])]⟩
    [97] (some 0) none (Json.num 5)
    (some (Registry.mk [([84], RegistryNode.mk
      [RegistryPort.mk none (some [71, 114, 97, 100, 105, 101, 110, 116]) none]
      [])]))
    ⟨⟨none, none, 0⟩, Json.obj [(keyNodes, Json.arr [Json.obj
      [(keyId, Json.str [97]), (keyType, Json.str [84]),
       (keyInputs, Json.arr [Json.obj [(keyR,
         Json.obj [(keyD, Json.str [49])])]])]])]⟩
    [Json.obj [(keyId, Json.str [97]), (keyType, Json.str [84]),
      (keyInputs, Json.arr [Json.obj []])]]
    [97] 0 0 rfl rfl rfl rfl rfl).1
  rw [h]
  rfl

theorem mem_setField : ∀ (fs : List (Str × Json)) (k : Str) (v : Json)
    (x : Str × Json), x ∈ setField fs k v → x.1 = k ∨ x ∈ fs := by
  intro fs
  induction fs with
  | nil =>
    intro k v x hx
    simp only [setField, List.mem_singleton] at hx
    exact Or.inl (by rw [hx])
  | cons p rest ih =>
    intro k v x hx
    obtain ⟨k1, v1⟩ := p
    by_cases h : k1 = k
    · subst h
      simp only [setField, if_true, List.mem_cons] at hx
      rcases hx with h1 | h1
      · exact Or.inl (by rw [h1])
      · exact Or.inr (List.mem_cons_of_mem _ h1)
    · simp only [setField, h, if_false, List.mem_cons] at hx
      rcases hx with h1 | h1
      · exact Or.inr (by simp [h1])
      · rcases ih k v x h1 with h2 | h2
        · exact Or.inl h2
        · exact Or.inr (List.mem_cons_of_mem _ h2)

theorem anim_meta_map_keys (a : Bool) (kc : Option Nat) (ra : Option Json)
    (mode : GraphMode) (m : List (Str × Json))
    (h : anim_meta_map a kc ra mode = some m) :
    ∀ kv ∈ m, kv.1 = keyAn ∨ kv.1 = keyK ∨ kv.1 = keyAd := by
  cases a with
  | false => simp [anim_meta_map] at h
  | true =>
    simp only [anim_meta_map, Bool.not_true, Bool.false_eq_true, if_false,
      Option.some.injEq] at h
    subst h
    intro kv hkv
    have hbase : ∀ y : Str × Json, y ∈ [(keyAn, Json.bool true)] → y.1 = keyAn := by
      intro y hy
      simp only [List.mem_singleton] at hy
      rw [hy]
    have hstep1 : ∀ y : Str × Json,
        y ∈ (match kc with
          | some kcv => setField [(keyAn, Json.bool true)] keyK (Json.num kcv)
          | none => [(keyAn, Json.bool true)]) →
        y.1 = keyAn ∨ y.1 = keyK := by
      intro y hy
      cases kc with
      | none => exact Or.inl (hbase y hy)
      | some kcv =>
        rcases mem_setField _ _ _ y hy with h1 | h1
        · exact Or.inr h1
        · exact Or.inl (hbase y h1)
    split at hkv
    · rename_i hfull
      split at hkv
      · rename_i raw hraw
        rcases mem_setField _ _ _ kv hkv with h1 | h1
        · exact Or.inr (Or.inr h1)
        · rcases hstep1 kv h1 with h2 | h2
          · exact Or.inl h2
          · exact Or.inr (Or.inl h2)
      · rcases hstep1 kv hkv with h2 | h2
        · exact Or.inl h2
        · exact Or.inr (Or.inl h2)
    · rcases hstep1 kv hkv with h2 | h2
      · exact Or.inl h2
      · exact Or.inr (Or.inl h2)

theorem extract_anim_keys (input : Json) (mode : GraphMode)
    (m : List (Str × Json))
    (h : (extract_input_value_with_anim input mode).2 = some m) :
    ∀ kv ∈ m, kv.1 = keyAn ∨ kv.1 = keyK ∨ kv.1 = keyAd := by
  unfold extract_input_value_with_anim at h
  repeat' split at h
  all_goals exact anim_meta_map_keys _ _ _ _ _ (by simpa using h)

set_option maxHeartbeats 2000000 in
theorem buildInputEntry_lookup_v (reg_node : Option RegistryNode)
    (mode : GraphMode) (json_inputs full_ids : Bool)
    (id_map : List (Str × Json)) (i : Nat) (input : Json) :
    lookupField (buildInputEntry reg_node mode json_inputs full_ids id_map
        i input) keyV =
      (match (extract_input_value_with_anim input mode).1 with
       | some v => if isPlaceholderNeg4 v then none else some v
       | none => none) := by
  have hraw : ∀ E w, lookupField (setField E keyRaw w) keyV = lookupField E keyV :=
    fun E w => lookup_setField_ne E keyRaw keyV w (by decide)
  have hA : ∀ E w, lookupField (setField E keyA w) keyV = lookupField E keyV :=
    fun E w => lookup_setField_ne E keyA keyV w (by decide)
  have hC : ∀ E w, lookupField (setField E keyC w) keyV = lookupField E keyV :=
    fun E w => lookup_setField_ne E keyC keyV w (by decide)
  have hN : ∀ E w, lookupField (setField E keyN w) keyV = lookupField E keyV :=
    fun E w => lookup_setField_ne E keyN keyV w (by decide)
  have hT : ∀ E w, lookupField (setField E keyT w) keyV = lookupField E keyV :=
    fun E w => lookup_setField_ne E keyT keyV w (by decide)
  have hS : lookupField [(keyS, Json.num (i : Int))] keyV = none := by
    simp [lookupField, keyS, keyV]
  have hVs : ∀ E w, lookupField (setField E keyV w) keyV = some w :=
    fun E w => lookup_setField_self E keyV w
  have hfold : ∀ (meta : List (Str × Json)),
      (∀ kv ∈ meta, kv.1 ≠ keyV) →
      ∀ E, lookupField (meta.foldl (fun e kv => setField e kv.1 kv.2) E) keyV =
        lookupField E keyV := by
    intro meta
    induction meta with
    | nil =>
      intro _ E
      rfl
    | cons kv rest ih =>
      intro h E
      simp only [List.foldl_cons]
      rw [ih (fun x hx => h x (List.mem_cons_of_mem _ hx)) (setField E kv.1 kv.2),
        lookup_setField_ne E kv.1 keyV kv.2 (Ne.symm (h kv (List.mem_cons_self _ _)))]
  unfold buildInputEntry
  cases hval : (extract_input_value_with_anim input mode).1 with
  | none =>
    cases hmeta : (extract_input_value_with_anim input mode).2 with
    | none =>
      repeat' split
      all_goals simp [hval, hmeta, hraw, hA, hC, hN, hT, hS]
    | some meta =>
      have hkeys : ∀ kv ∈ meta, kv.1 ≠ keyV := by
        intro kv hkv
        rcases extract_anim_keys input mode meta hmeta kv hkv with h | h | h <;>
          (rw [h]; decide)
      repeat' split
      all_goals simp [hval, hmeta, hraw, hA, hC, hN, hT, hS, hfold meta hkeys]
  | some v =>
    by_cases hpl : isPlaceholderNeg4 v = true
    · cases hmeta : (extract_input_value_with_anim input mode).2 with
      | none =>
        repeat' split
        all_goals simp [hval, hmeta, hpl, hraw, hA, hC, hN, hT, hS]
      | some meta =>
        have hkeys : ∀ kv ∈ meta, kv.1 ≠ keyV := by
          intro kv hkv
          rcases extract_anim_keys input mode meta hmeta kv hkv with h | h | h <;>
            (rw [h]; decide)
        repeat' split
        all_goals simp [hval, hmeta, hpl, hraw, hA, hC, hN, hT, hS, hfold meta hkeys]
    · have hpl2 : isPlaceholderNeg4 v = false := Bool.eq_false_iff.mpr hpl
      cases hmeta : (extract_input_value_with_anim input mode).2 with
      | none =>
        repeat' split
        all_goals simp [hval, hmeta, hpl2, hraw, hA, hC, hN, hT, hS, hVs]
      | some meta =>
        have hkeys : ∀ kv ∈ meta, kv.1 ≠ keyV := by
          intro kv hkv
          rcases extract_anim_keys input mode meta hmeta kv hkv with h | h | h <;>
            (rw [h]; decide)
        repeat' split
        all_goals simp [hval, hmeta, hpl2, hraw, hA, hC, hN, hT, hS, hVs, hfold meta hkeys]

/-- Claim C10: in Compact and Full modes alike, an extracted literal value
appears under the port entry's v field exactly when it is not the JSON
number -4; the placeholder test of the source is structural equality
against the number -4. -/
theorem placeholder_filter (mode : GraphMode)
    (hmode : mode = GraphMode.compact ∨ mode = GraphMode.full)
    (reg_node : Option RegistryNode) (json_inputs full_ids : Bool)
    (id_map : List (Str × Json)) (i : Nat) (input : Json) (v : Json)
    (hv : (extract_input_value_with_anim input mode).1 = some v) :
    (lookupField (buildInputEntry reg_node mode json_inputs full_ids id_map
        i input) keyV = some v ↔ v ≠ Json.num (-4)) ∧
    (isPlaceholderNeg4 v = true ↔ v = Json.num (-4)) := by
  have hiff : isPlaceholderNeg4 v = true ↔ v = Json.num (-4) := by
    cases v <;> simp [isPlaceholderNeg4]
  refine ⟨?_, hiff⟩
  rw [buildInputEntry_lookup_v, hv]
  by_cases hneg : v = Json.num (-4)
  · subst hneg
    simp [show isPlaceholderNeg4 (Json.num (-4)) = true from rfl]
  · have hb : isPlaceholderNeg4 v = false :=
      Bool.eq_false_iff.mpr (fun hc => hneg (hiff.mp hc))
    simp [hb, hneg]

/-- Witness for C10: a literal 7 under r.d in Full mode appears under v. -/
theorem placeholder_filter_witness :
    lookupField (buildInputEntry none GraphMode.full false false [] 0
        (Json.obj [(keyR, Json.obj [(keyD, Json.num 7)])])) keyV =
      some (Json.num 7) := by
  have h := (placeholder_filter GraphMode.full (Or.inr rfl) none false false [] 0
    (Json.obj [(keyR, Json.obj [(keyD, Json.num 7)])]) (Json.num 7) rfl).1
  exact h.mpr (by simp)

theorem parseChunksFuel_exit (ld : List Nat → Str) (fuel : Nat)
    (data : List Nat) (hs pos : Nat) (t : Option Thumbnail) (m : Option Meta)
    (h : ¬ pos < hs) :
    parseChunksFuel ld fuel data hs pos t m = .ok (t, m) := by
  cases fuel with
  | zero => rfl
  | succ f => simp [parseChunksFuel, h]

theorem parseChunksFuel_step (ld : List Nat → Str) (fuel : Nat)
    (data pre tag body rest : List Nat) (hs pos : Nat)
    (t : Option Thumbnail) (m : Option Meta)
    (hdata : data = pre ++ (tag ++ (writeU32le body.length ++ (body ++ rest))))
    (hpre : pre.length = pos) (htag : tag.length = 4)
    (hlen : body.length < 4294967296)
    (hbound : pos + 8 + body.length ≤ hs) :
    parseChunksFuel ld (fuel + 1) data hs pos t m =
      (if tag = tagTHMB then
        parseChunksFuel ld fuel data hs (pos + 8 + body.length) (some ⟨body⟩) m
      else if tag = tagMETA then
        (if body.length < 4 then .error .metaChunkTooSmall
         else parseChunksFuel ld fuel data hs (pos + 8 + body.length) t
           (some ⟨readU32 body, trim_cstr ld (body.drop 4)⟩))
      else parseChunksFuel ld fuel data hs (pos + 8 + body.length) t m) := by
  have hdrop0 : data.drop pos = tag ++ (writeU32le body.length ++ (body ++ rest)) := by
    rw [hdata]
    exact List.drop_left' hpre
  have hdrop4 : data.drop (pos + 4) = writeU32le body.length ++ (body ++ rest) := by
    rw [hdata, ← List.append_assoc]
    exact List.drop_left' (by simp [hpre, htag])
  have hdrop8 : data.drop (pos + 8) = body ++ rest := by
    rw [hdata, ← List.append_assoc, ← List.append_assoc]
    refine List.drop_left' ?_
    simp only [List.length_append, hpre, htag, writeU32le_length]
  have htake : (data.drop pos).take 4 = tag := by
    rw [hdrop0]
    exact List.take_left' htag
  have hread : readU32 (data.drop (pos + 4)) = body.length := by
    rw [hdrop4, readU32_writeU32le]
    omega
  have hbody : (data.drop (pos + 8)).take body.length = body := by
    rw [hdrop8]
    exact List.take_left' rfl
  simp only [parseChunksFuel]
  rw [if_pos (show pos < hs by omega), if_neg (show ¬ hs - pos < 8 by omega)]
  simp only [htake, hread, hbody]
  rw [if_neg (show ¬ body.length > hs - (pos + 8) by omega)]

theorem header_chunks_walk (ld : List Nat → Str) (pxc : PxcFile)
    (P D : List Nat)
    (hD : D = magicBytes ++ (writeU32le (8 + (header_chunks pxc).length) ++
      (header_chunks pxc ++ P)))
    (hhdr : 8 + (header_chunks pxc).length < 4294967296)
    (hmeta : ∀ mt, effective_meta pxc = some mt →
      mt.save_version < 4294967296 ∧ (0 : Nat) ∉ mt.version_string ∧
      ld mt.version_string = mt.version_string) :
    parseChunksFuel ld (8 + (header_chunks pxc).length) D
        (8 + (header_chunks pxc).length) 8 none none =
      .ok (pxc.header.thumbnail, effective_meta pxc) := by
  cases hth : pxc.header.thumbnail with
  | none =>
    cases hem : effective_meta pxc with
    | none =>
      have hhc : header_chunks pxc = [] := by
        simp [header_chunks, hth, hem]
      rw [hhc]
      exact parseChunksFuel_exit ld _ D _ 8 none none (by simp)
    | some mt =>
      obtain ⟨hsv, hvs0, hvsld⟩ := hmeta mt hem
      have hlenhc : (header_chunks pxc).length =
          8 + (mt.version_string.length + 5) := by
        simp [header_chunks, hth, hem, writeU32le, tagMETA] <;> omega
      have hbl : (writeU32le mt.save_version ++ (mt.version_string ++ [0])).length =
          mt.version_string.length + 5 := by
        simp [writeU32le]
      obtain ⟨f, hf⟩ : ∃ f, 8 + (header_chunks pxc).length = f + 1 :=
        ⟨7 + (header_chunks pxc).length, by omega⟩
      rw [hf]
      rw [parseChunksFuel_step ld f D (magicBytes ++ writeU32le (f + 1))
        tagMETA (writeU32le mt.save_version ++ (mt.version_string ++ [0])) P
        (f + 1) 8 none none
        (by rw [← hf, hD]; simp [header_chunks, hth, hem, writeU32le,
          List.append_assoc])
        (by simp [magicBytes, writeU32le])
        (by decide)
        (by omega)
        (by omega)]
      rw [if_neg (by decide), if_pos rfl, if_neg (by omega)]
      have hrv : readU32 (writeU32le mt.save_version ++
          (mt.version_string ++ [0])) = mt.save_version := by
        rw [readU32_writeU32le]
        omega
      have hts : trim_cstr ld ((writeU32le mt.save_version ++
          (mt.version_string ++ [0])).drop 4) = mt.version_string := by
        rw [List.drop_left' (writeU32le_length _)]
        unfold trim_cstr
        rw [takeWhile_ne_zero_append mt.version_string [] hvs0]
        exact hvsld
      rw [hrv, hts]
      exact parseChunksFuel_exit ld f D (f + 1) _ none _ (by omega)
  | some th =>
    cases hem : effective_meta pxc with
    | none =>
      have hlenhc : (header_chunks pxc).length = 8 + th.compressed.length := by
        simp [header_chunks, hth, hem, writeU32le, tagTHMB] <;> omega
      obtain ⟨f, hf⟩ : ∃ f, 8 + (header_chunks pxc).length = f + 1 :=
        ⟨7 + (header_chunks pxc).length, by omega⟩
      rw [hf]
      rw [parseChunksFuel_step ld f D (magicBytes ++ writeU32le (f + 1))
        tagTHMB th.compressed P (f + 1) 8 none none
        (by rw [← hf, hD]; simp [header_chunks, hth, hem, List.append_assoc])
        (by simp [magicBytes, writeU32le])
        (by decide)
        (by omega)
        (by omega)]
      rw [if_pos rfl]
      exact parseChunksFuel_exit ld f D (f + 1) _ _ none (by omega)
    | some mt =>
      obtain ⟨hsv, hvs0, hvsld⟩ := hmeta mt hem
      have hlenhc : (header_chunks pxc).length =
          (8 + th.compressed.length) + (8 + (mt.version_string.length + 5)) := by
        simp [header_chunks, hth, hem, writeU32le, tagTHMB, tagMETA] <;> omega
      have hbl : (writeU32le mt.save_version ++ (mt.version_string ++ [0])).length =
          mt.version_string.length + 5 := by
        simp [writeU32le]
      obtain ⟨f, hf⟩ : ∃ f, 8 + (header_chunks pxc).length = f + 1 :=
        ⟨7 + (header_chunks pxc).length, by omega⟩
      rw [hf]
      rw [parseChunksFuel_step ld f D (magicBytes ++ writeU32le (f + 1))
        tagTHMB th.compressed
        (tagMETA ++ (writeU32le (writeU32le mt.save_version ++
          (mt.version_string ++ [0])).length ++
          ((writeU32le mt.save_version ++ (mt.version_string ++ [0])) ++ P)))
        (f + 1) 8 none none
        (by rw [← hf, hD]; simp [header_chunks, hth, hem, writeU32le,
          List.append_assoc])
        (by simp [magicBytes, writeU32le])
        (by decide)
        (by omega)
        (by omega)]
      rw [if_pos rfl]
      obtain ⟨f2, hf2⟩ : ∃ f2, f = f2 + 1 := ⟨f - 1, by omega⟩
      rw [hf2]
      rw [parseChunksFuel_step ld f2 D
        (magicBytes ++ writeU32le (f2 + 1 + 1) ++ tagTHMB ++
          writeU32le th.compressed.length ++ th.compressed)
        tagMETA (writeU32le mt.save_version ++ (mt.version_string ++ [0])) P
        (f2 + 1 + 1) (8 + 8 + th.compressed.length) (some ⟨th.compressed⟩) none
        (by rw [← hf2, ← hf, hD]; simp [header_chunks, hth, hem, writeU32le,
          List.append_assoc])
        (by simp [magicBytes, tagTHMB, writeU32le] <;> omega)
        (by decide)
        (by omega)
        (by omega)]
      rw [if_neg (by decide), if_pos rfl, if_neg (by omega)]
      have hrv : readU32 (writeU32le mt.save_version ++
          (mt.version_string ++ [0])) = mt.save_version := by
        rw [readU32_writeU32le]
        omega
      have hts : trim_cstr ld ((writeU32le mt.save_version ++
          (mt.version_string ++ [0])).drop 4) = mt.version_string := by
        rw [List.drop_left' (writeU32le_length _)]
        unfold trim_cstr
        rw [takeWhile_ne_zero_append mt.version_string [] hvs0]
        exact hvsld
      rw [hrv, hts]
      exact parseChunksFuel_exit ld f2 D (f2 + 1 + 1) _ _ _ (by omega)

/-- Claim C1: for every container whose header carries only a thumbnail and
meta (the only chunks the model of the source can carry), and any document,
parsing the written bytes succeeds and returns the document deep-equal, the
thumbnail byte-identical, and the meta identical to what write carried or
derived, for either serialization flag; the external codecs are assumed to
round-trip pointwise at the written payload, as zlib and serde_json do. -/
theorem pxc_roundtrip
    (zlibCompress : List Nat → List Nat)
    (zlibDecompress : List Nat → Option (List Nat))
    (jsonToString jsonToStringPretty : Json → Str)
    (jsonFromStr : Str → Option Json) (lossyDecode : List Nat → Str)
    (pxc : PxcFile) (minify : Bool)
    (hzlib : zlibDecompress (zlibCompress
        (serializedDoc jsonToString jsonToStringPretty minify pxc.json ++ [0])) =
      some (serializedDoc jsonToString jsonToStringPretty minify pxc.json ++ [0]))
    (hser0 : (0 : Nat) ∉ serializedDoc jsonToString jsonToStringPretty minify pxc.json)
    (hlossy : lossyDecode (serializedDoc jsonToString jsonToStringPretty minify
        pxc.json) = serializedDoc jsonToString jsonToStringPretty minify pxc.json)
    (hparse : jsonFromStr (serializedDoc jsonToString jsonToStringPretty minify
        pxc.json) = some pxc.json)
    (hhdr : 8 + (header_chunks pxc).length < 4294967296)
    (hmeta : ∀ mt, effective_meta pxc = some mt →
      mt.save_version < 4294967296 ∧ (0 : Nat) ∉ mt.version_string ∧
      lossyDecode mt.version_string = mt.version_string) :
    parse_pxc zlibDecompress jsonFromStr lossyDecode
        (write_pxc zlibCompress jsonToString jsonToStringPretty pxc minify) =
      .ok ⟨⟨pxc.header.thumbnail, effective_meta pxc,
        8 + (header_chunks pxc).length⟩, pxc.json⟩ := by
  have hwrite : write_pxc zlibCompress jsonToString jsonToStringPretty pxc minify =
      magicBytes ++ (writeU32le (8 + (header_chunks pxc).length) ++
        (header_chunks pxc ++ zlibCompress
          (serializedDoc jsonToString jsonToStringPretty minify pxc.json ++ [0]))) := by
    simp [write_pxc, List.append_assoc]
  rw [hwrite]
  generalize hsd : serializedDoc jsonToString jsonToStringPretty minify pxc.json = sd
    at hzlib hser0 hlossy hparse ⊢
  generalize hPd : zlibCompress (sd ++ [0]) = P at hzlib ⊢
  have hchunks := header_chunks_walk lossyDecode pxc P
    (magicBytes ++ (writeU32le (8 + (header_chunks pxc).length) ++
      (header_chunks pxc ++ P))) rfl hhdr hmeta
  have hlenD : (magicBytes ++ (writeU32le (8 + (header_chunks pxc).length) ++
      (header_chunks pxc ++ P))).length =
      8 + (header_chunks pxc).length + P.length := by
    simp [magicBytes, writeU32le] <;> omega
  unfold parse_pxc
  rw [if_neg (show ¬ (magicBytes ++ (writeU32le (8 + (header_chunks pxc).length) ++
      (header_chunks pxc ++ P))).length < 8 by rw [hlenD]; omega)]
  have hmag : (magicBytes ++ (writeU32le (8 + (header_chunks pxc).length) ++
      (header_chunks pxc ++ P))).take 4 = magicBytes :=
    List.take_left' (by simp [magicBytes])
  rw [if_neg (by simp [hmag])]
  have hread : readU32 ((magicBytes ++ (writeU32le (8 + (header_chunks pxc).length) ++
      (header_chunks pxc ++ P))).drop 4) = 8 + (header_chunks pxc).length := by
    rw [List.drop_left' (show magicBytes.length = 4 by simp [magicBytes]),
      readU32_writeU32le]
    omega
  simp only [hread]
  rw [if_neg (show ¬ 8 + (header_chunks pxc).length < 8 by omega)]
  rw [if_neg (show ¬ (magicBytes ++ (writeU32le (8 + (header_chunks pxc).length) ++
      (header_chunks pxc ++ P))).length < 8 + (header_chunks pxc).length by
    rw [hlenD]; omega)]
  rw [hchunks]
  have hdropHS : (magicBytes ++ (writeU32le (8 + (header_chunks pxc).length) ++
      (header_chunks pxc ++ P))).drop (8 + (header_chunks pxc).length) = P := by
    rw [show magicBytes ++ (writeU32le (8 + (header_chunks pxc).length) ++
        (header_chunks pxc ++ P)) =
      (magicBytes ++ writeU32le (8 + (header_chunks pxc).length) ++
        header_chunks pxc) ++ P from by simp [List.append_assoc]]
    refine List.drop_left' ?_
    simp [magicBytes, writeU32le] <;> omega
  have hpay : parse_payload zlibDecompress jsonFromStr lossyDecode P =
      .ok pxc.json := by
    unfold parse_payload zlibDecompOrRaw
    simp only [hzlib]
    unfold trim_cstr
    rw [takeWhile_ne_zero_append sd [] hser0, hlossy, hparse]
  simp only [hdropHS, hpay]

/-- Witness for C1: a concrete container with thumbnail and carried meta
round-trips under concrete codecs satisfying the pointwise assumptions. -/
theorem pxc_roundtrip_witness :
    parse_pxc wZlibDecompress wJsonFromStr wLossyDecode
        (write_pxc wZlibCompress wJsonToString wJsonToStringPretty
          ⟨⟨some ⟨[7]⟩, some ⟨5, [65]⟩, 0⟩, Json.num 1⟩ true) =
      .ok ⟨⟨some ⟨[7]⟩, some ⟨5, [65]⟩, 31⟩, Json.num 1⟩ := by
  have h := pxc_roundtrip wZlibCompress wZlibDecompress wJsonToString
    wJsonToStringPretty wJsonFromStr wLossyDecode
    ⟨⟨some ⟨[7]⟩, some ⟨5, [65]⟩, 0⟩, Json.num 1⟩ true
    rfl (by decide) rfl rfl (by decide)
    (fun mt hm => by
      have h2 : some (Meta.mk 5 [65]) = some mt := hm
      cases h2
      exact ⟨by decide, by decide, rfl⟩)
  exact h
